import Mathlib

/-!
Verification of the mcpcpp MCP server against its specification.

The development shallowly embeds the C++ sources:
* `src/src/mcp_server.cpp` (`mcp::MCPServer`) in namespace `Mcp`;
* `src/src/dynamic_mcp_server.cpp` (`dynamic_mcp`) in namespace `DynamicMcp`.

JSON values (nlohmann::json) are modelled by the inductive `Mcp.Json`.
The sources only ever construct or inspect null, boolean, signed-integer,
string, array and object values on the paths covered here, so those are the
constructors of the model.  nlohmann objects are key-ordered maps; where the
iteration order of a `std::map` is observable (the variable environment of
the workflow executor) the model keeps the association list sorted by key.
C++ exceptions are modelled with `Except`: nlohmann `json::exception`s and
`std::exception`s thrown by handlers are distinguished by `Mcp.JErr` because
`MCPServer::handle_message` catches them differently.
-/

namespace Mcp

/-- Model of `nlohmann::json` restricted to the value kinds the embedded code
paths construct and inspect. -/
inductive Json where
  | null
  | boolean (b : Bool)
  | intNum (n : Int)
  | str (s : String)
  | arr (xs : List Json)
  | obj (kvs : List (String × Json))

/-- Key lookup in an object's association list (first match). -/
def lookupPairs : List (String × Json) → String → Option Json
  | [], _ => none
  | (k', v) :: rest, k => if k' = k then some v else lookupPairs rest k

/-- `j[k]` read access for objects; `none` for every other value kind. -/
def Json.lookup : Json → String → Option Json
  | .obj kvs, k => lookupPairs kvs k
  | _, _ => none

/-- `j.contains(k)`. -/
def Json.hasKey (j : Json) (k : String) : Bool :=
  (j.lookup k).isSome

/-- Replace the binding of `k` if present, else append it. -/
def setPairs : List (String × Json) → String → Json → List (String × Json)
  | [], k, v => [(k, v)]
  | (k', v') :: rest, k, v =>
    if k' = k then (k, v) :: rest else (k', v') :: setPairs rest k v

/-- `j.is_null()`. -/
def Json.isNull : Json → Bool
  | .null => true
  | _ => false

/-- Two's-complement truncation to a 32-bit C++ `int`, as the
`static_cast<int>` inside nlohmann's arithmetic conversion performs on the
library's 64-bit integer storage. -/
def toInt32 (n : Int) : Int :=
  (n + 2 ^ 31) % 2 ^ 32 - 2 ^ 31

/-- `j.get<int>()`: succeeds only on a number, truncating it to the C++
32-bit `int`; anything else raises a `json::exception` (type_error 302) in
the C++ source. -/
def Json.getInt : Json → Except String Int
  | .intNum n => .ok (toInt32 n)
  | _ => .error "type_error.302 type must be number"

/-- `j.get<std::string>()`. -/
def Json.getStr : Json → Except String String
  | .str s => .ok s
  | _ => .error "type_error.302 type must be string"

/-- `j.get<bool>()`. -/
def Json.getBool : Json → Except String Bool
  | .boolean b => .ok b
  | _ => .error "type_error.302 type must be boolean"

/-- `j[k] = v` write access (nlohmann `operator[]` assignment): updates an
object, silently turns `null` into a one-member object, and raises a
json type error on every other value kind. -/
def Json.setKey : Json → String → Json → Except String Json
  | .obj kvs, k, v => .ok (.obj (setPairs kvs k v))
  | .null, k, v => .ok (.obj [(k, v)])
  | _, _, _ => .error "type_error.305 cannot use operator[] with a non-object value"

/-- JSON string escaping as performed by `nlohmann::json::dump`. -/
def escapeChar (c : Char) : String :=
  if c = '"' then "\\\""
  else if c = '\\' then "\\\\"
  else if c = '\x08' then "\\b"
  else if c = '\x0c' then "\\f"
  else if c = '\n' then "\\n"
  else if c = '\r' then "\\r"
  else if c = '\t' then "\\t"
  else if c.toNat < 32 then
    let hx := fun (n : Nat) => String.singleton (Nat.digitChar n)
    "\\u00" ++ hx (c.toNat / 16) ++ hx (c.toNat % 16)
  else String.singleton c

/-- Escape a whole string for JSON output. -/
def escapeString (s : String) : String :=
  String.join (s.toList.map escapeChar)

mutual

/-- `j.dump()`: compact serialisation, as nlohmann produces it. -/
def Json.dump : Json → String
  | .null => "null"
  | .boolean true => "true"
  | .boolean false => "false"
  | .intNum n => toString n
  | .str s => "\"" ++ escapeString s ++ "\""
  | .arr xs => "[" ++ dumpList xs ++ "]"
  | .obj kvs => "\x7b" ++ dumpPairs kvs ++ "\x7d"

/-- Comma-separated serialisation of array elements. -/
def dumpList : List Json → String
  | [] => ""
  | [x] => Json.dump x
  | x :: y :: rest => Json.dump x ++ "," ++ dumpList (y :: rest)

/-- Comma-separated serialisation of object members. -/
def dumpPairs : List (String × Json) → String
  | [] => ""
  | [(k, v)] => "\"" ++ escapeString k ++ "\":" ++ Json.dump v
  | (k, v) :: p :: rest =>
    "\"" ++ escapeString k ++ "\":" ++ Json.dump v ++ "," ++ dumpPairs (p :: rest)

end

/-- One pass of `std::string::find`/`replace` with the cursor advanced past
each inserted replacement, as in the substitution loops of
`dynamic_mcp_server.cpp`: scan left to right, emit the replacement whenever
the (nonempty) pattern `p :: ps` is a prefix, and never rescan emitted
replacement text. -/
def replaceAllAux (p : Char) (ps rep : List Char) : Nat → List Char → List Char
  | _, [] => []
  | 0, l => l
  | fuel + 1, c :: rest =>
    if (p :: ps).isPrefixOf (c :: rest) then
      rep ++ replaceAllAux p ps rep fuel (rest.drop ps.length)
    else
      c :: replaceAllAux p ps rep fuel rest

/-- `while ((pos = s.find(pat, pos)) != npos) s.replace(pos, …), pos += rep.size()`.
The pattern is never empty at any call site (it is always `"{" + name + "}"`).
The fuel argument of `replaceAllAux` only bounds the recursion; it starts at
the subject's length and every recursive call removes at least one character,
so the fuel-exhausted branch is unreachable. -/
def strReplaceAll (s pat rep : String) : String :=
  match pat.toList with
  | [] => s
  | p :: ps => ⟨replaceAllAux p ps rep.toList s.toList.length s.toList⟩

end Mcp

namespace DynamicMcp

open Mcp

/-- `dynamic_mcp::TaskParameter` (header `dynamic_mcp_server.hpp`). -/
structure TaskParameter where
  name : String
  paramType : String
  required : Bool
  description : String
  default_value : Json

/-- `dynamic_mcp::TaskConfig`. -/
structure TaskConfig where
  name : String
  description : String
  operation_type : String
  config : Json
  parameters : List TaskParameter

/-- `dynamic_mcp::WorkflowStep`.  The two mappings are `std::map<string,string>`;
the lists here carry the pairs in the map's (key-sorted, duplicate-free)
iteration order. -/
structure WorkflowStep where
  name : String
  task : String
  dependencies : List String
  input_mapping : List (String × String)
  output_mapping : List (String × String)

/-- `dynamic_mcp::WorkflowConfig`. -/
structure WorkflowConfig where
  name : String
  description : String
  parameters : List TaskParameter
  steps : List WorkflowStep

/-- `dynamic_mcp::validate_parameter_type` (defined in the source and declared
in the header, but not called from anywhere in the repository). -/
def validate_parameter_type (type_str : String) (value : Json) : Bool :=
  if type_str = "string" ∨ type_str = "str" then
    match value with | .str _ => true | _ => false
  else if type_str = "integer" ∨ type_str = "int" then
    match value with | .intNum _ => true | _ => false
  else if type_str = "float" ∨ type_str = "double" ∨ type_str = "number" then
    match value with | .intNum _ => true | _ => false
  else if type_str = "boolean" ∨ type_str = "bool" then
    match value with | .boolean _ => true | _ => false
  else if type_str = "object" then
    match value with | .obj _ => true | _ => false
  else if type_str = "array" then
    match value with | .arr _ => true | _ => false
  else true

/-- `dynamic_mcp::create_error_response`:
`{ "success": false, "error": message }`. -/
def create_error_response (error_message : String) : Json :=
  .obj [("success", .boolean false), ("error", .str error_message)]

/-- The replacement text a variable contributes during placeholder
substitution: a string's literal contents, any other value's `dump()`. -/
def replacementOf (v : Json) : String :=
  match v with
  | .str s => s
  | v => v.dump

/-- The workflow executor's variable environment: a `std::map<string,json>`,
modelled as an association list kept sorted by key so that list order is the
map's iteration order. -/
def Smap := List (String × Json)

/-- `std::map::operator[]` assignment: replace the binding if the key is
present, otherwise insert at the sorted position. -/
def Smap.insert : Smap → String → Json → Smap
  | [], k, v => [(k, v)]
  | (k', v') :: rest, k, v =>
    if k = k' then (k, v) :: rest
    else if k < k' then (k, v) :: (k', v') :: rest
    else (k', v') :: Smap.insert rest k v

/-- Lookup in the environment map. -/
def Smap.find? : Smap → String → Option Json
  | [], _ => none
  | (k', v) :: rest, k => if k' = k then some v else Smap.find? rest k

/-- `WorkflowExecutor::replace_variables`: on a string value, replace each
`\x7bvar\x7d` placeholder by the variable's replacement text, iterating the
variable map in its (key-sorted) list order; every other value is returned
unchanged. -/
def WorkflowExecutor.replace_variables (value : Json) (vars : Smap) : Json :=
  match value with
  | .str s =>
    .str (List.foldl
      (fun acc kv => strReplaceAll acc ("\x7b" ++ kv.1 ++ "\x7d") (replacementOf kv.2))
      s vars)
  | v => v

/-- The `step_map` of `WorkflowExecutor::resolve_dependencies`:
`step_map[step.name] = step` over the list in order, so a later step with the
same name overwrites an earlier one. -/
def stepMapFind (steps : List WorkflowStep) (n : String) : Option WorkflowStep :=
  (steps.filter (fun s => s.name = n)).getLast?

/-- The dependencies the `visit` lambda recurses into for a step name: the
entry's declared dependencies, restricted to names present in `step_map`
(`if (step_map.count(dep)) visit(dep)`).  `visit` is only ever invoked on
names present in `step_map`, so the default-construction performed by
`step_map[step_name]` on a missing key never happens; for such a name this
model returns no dependencies. -/
def stepDeps (steps : List WorkflowStep) (n : String) : List String :=
  match stepMapFind steps n with
  | some s => s.dependencies.filter (fun d => (stepMapFind steps d).isSome)
  | none => []

mutual

/-- The recursive lambda `visit` of `WorkflowExecutor::resolve_dependencies`,
acting on the state `(visited, order)`: skip if already visited, otherwise
mark visited, recursively visit the dependencies present in `step_map`, then
emit the step name.  The fuel argument is an artifact of the embedding that
bounds the recursion depth; `resolve_dependencies` supplies enough fuel that
the `none` branches are never taken (proved below). -/
def visitF (steps : List WorkflowStep) :
    Nat → String → List String × List String → Option (List String × List String)
  | 0, _, _ => none
  | fuel + 1, n, (visited, order) =>
    if n ∈ visited then some (visited, order)
    else
      match visitListF steps fuel (stepDeps steps n) (n :: visited, order) with
      | none => none
      | some (v2, o2) => some (v2, o2 ++ [n])
termination_by structural fuel => fuel

/-- The `for (const auto& dep : step.dependencies)` loop of `visit`, and also
the top-level `for (const auto& step : steps) visit(step.name)` loop. -/
def visitListF (steps : List WorkflowStep) :
    Nat → List String → List String × List String → Option (List String × List String)
  | _, [], st => some st
  | 0, _ :: _, _ => none
  | fuel + 1, d :: ds, st =>
    match visitF steps fuel d st with
    | none => none
    | some st' => visitListF steps fuel ds st'
termination_by structural fuel _ => fuel

end

/-- The number of distinct step names not yet visited; the measure that shows
the fuel below is sufficient. -/
def unvisitedCount (steps : List WorkflowStep) (visited : List String) : Nat :=
  ((steps.map WorkflowStep.name).toFinset \ visited.toFinset).card

/-- A uniform bound on the length of any step's dependency list. -/
def depBound (steps : List WorkflowStep) : Nat :=
  (steps.map (fun s => s.dependencies.length)).sum

/-- Fuel sufficient for the whole depth-first traversal. -/
def resolveFuel (steps : List WorkflowStep) : Nat :=
  unvisitedCount steps [] * (depBound steps + 1) + steps.length + 1

/-- `WorkflowExecutor::resolve_dependencies`: depth-first emit-after-children
traversal of the steps in declaration order. -/
def resolve_dependencies (steps : List WorkflowStep) : List String :=
  match visitListF steps (resolveFuel steps) (steps.map WorkflowStep.name) ([], []) with
  | some (_, order) => order
  | none => []

/-- Structural facts about a `visit` call, proved simultaneously for the
single-name and the list form: the visited set only grows, the order list is
extended at its end, a name is visited-but-not-yet-emitted after the call iff
it was before (every name marked during the call is emitted before the call
returns), and the visited name (resp. all names of the list) is visited
afterwards. -/
theorem visit_struct (steps : List WorkflowStep) : ∀ fuel : Nat,
    (∀ n v o v' o', visitF steps fuel n (v, o) = some (v', o') →
      (∀ x, x ∈ v → x ∈ v') ∧ (∃ t, o' = o ++ t) ∧
      (∀ x, (x ∈ v' ∧ ¬ x ∈ o') ↔ (x ∈ v ∧ ¬ x ∈ o)) ∧ n ∈ v') ∧
    (∀ ds v o v' o', visitListF steps fuel ds (v, o) = some (v', o') →
      (∀ x, x ∈ v → x ∈ v') ∧ (∃ t, o' = o ++ t) ∧
      (∀ x, (x ∈ v' ∧ ¬ x ∈ o') ↔ (x ∈ v ∧ ¬ x ∈ o)) ∧ (∀ d, d ∈ ds → d ∈ v')) := by
  intro fuel
  induction fuel with
  | zero =>
    constructor
    · intro n v o v' o' h
      simp [visitF] at h
    · intro ds v o v' o' h
      cases ds with
      | nil =>
        simp [visitListF] at h
        obtain ⟨rfl, rfl⟩ := h
        exact ⟨fun x hx => hx, ⟨[], (List.append_nil o).symm⟩, fun x => Iff.rfl,
          fun d hd => absurd hd (List.not_mem_nil d)⟩
      | cons d ds =>
        simp [visitListF] at h
  | succ fuel ih =>
    constructor
    · intro n v o v' o' h
      rw [visitF] at h
      by_cases hn : n ∈ v
      · simp [hn] at h
        obtain ⟨rfl, rfl⟩ := h
        exact ⟨fun x hx => hx, ⟨[], (List.append_nil o).symm⟩, fun x => Iff.rfl, hn⟩
      · simp [hn] at h
        cases hrec : visitListF steps fuel (stepDeps steps n) (n :: v, o) with
        | none => rw [hrec] at h; simp at h
        | some st2 =>
          obtain ⟨v2, o2⟩ := st2
          rw [hrec] at h
          simp at h
          obtain ⟨rfl, rfl⟩ := h
          obtain ⟨hsub, ⟨t, ht⟩, hgray, _⟩ := (ih.2) _ _ _ _ _ hrec
          refine ⟨?_, ?_, ?_, ?_⟩
          · exact fun x hx => hsub x (List.mem_cons_of_mem _ hx)
          · exact ⟨t ++ [n], by rw [ht, List.append_assoc]⟩
          · intro x
            constructor
            · rintro ⟨hxv, hxo⟩
              have hxn : x ≠ n := by
                intro hh
                exact hxo (by simp [hh])
              have hxo2 : ¬ x ∈ o2 := fun hh => hxo (by simp [hh])
              obtain ⟨hxnv, hxno⟩ := (hgray x).1 ⟨hxv, hxo2⟩
              rcases List.mem_cons.1 hxnv with h1 | h1
              · exact absurd h1 hxn
              · exact ⟨h1, hxno⟩
            · rintro ⟨hxv, hxo⟩
              have hxn : x ≠ n := fun hh => hn (hh ▸ hxv)
              have h2 := (hgray x).2 ⟨List.mem_cons_of_mem _ hxv, hxo⟩
              refine ⟨h2.1, ?_⟩
              intro hh
              rcases List.mem_append.1 hh with hh1 | hh1
              · exact h2.2 hh1
              · exact hxn (List.mem_singleton.1 hh1)
          · exact hsub n (List.mem_cons_self n v)
    · intro ds v o v' o' h
      cases ds with
      | nil =>
        simp [visitListF] at h
        obtain ⟨rfl, rfl⟩ := h
        exact ⟨fun x hx => hx, ⟨[], (List.append_nil o).symm⟩, fun x => Iff.rfl,
          fun d hd => absurd hd (List.not_mem_nil d)⟩
      | cons d ds =>
        rw [visitListF] at h
        cases hrec : visitF steps fuel d (v, o) with
        | none => rw [hrec] at h; simp at h
        | some st1 =>
          obtain ⟨v1, o1⟩ := st1
          rw [hrec] at h
          simp at h
          obtain ⟨hsub1, ⟨t1, ht1⟩, hgray1, hd1⟩ := (ih.1) _ _ _ _ _ hrec
          obtain ⟨hsub2, ⟨t2, ht2⟩, hgray2, hds⟩ := (ih.2) _ _ _ _ _ h
          refine ⟨fun x hx => hsub2 x (hsub1 x hx),
            ⟨t1 ++ t2, by rw [ht2, ht1, List.append_assoc]⟩,
            fun x => (hgray2 x).trans (hgray1 x), ?_⟩
          intro e he
          rcases List.mem_cons.1 he with rfl | hh
          · exact hsub2 e hd1
          · exact hds e hh

/-- A `step_map` hit comes from a step of the list with the looked-up name. -/
theorem stepMapFind_mem {steps : List WorkflowStep} {n : String} {s : WorkflowStep}
    (h : stepMapFind steps n = some s) : s ∈ steps ∧ s.name = n := by
  unfold stepMapFind at h
  have hm := List.mem_of_mem_getLast? h
  have := List.mem_filter.1 hm
  exact ⟨this.1, by simpa using this.2⟩

/-- Dependencies followed by `visit` are names of declared steps. -/
theorem mem_names_of_stepDeps {steps : List WorkflowStep} {n d : String}
    (h : d ∈ stepDeps steps n) : d ∈ steps.map WorkflowStep.name := by
  unfold stepDeps at h
  cases hf : stepMapFind steps n with
  | none => rw [hf] at h; exact absurd h (List.not_mem_nil d)
  | some s =>
    rw [hf] at h
    have := List.mem_filter.1 h
    have hs : (stepMapFind steps d).isSome := by simpa using this.2
    cases hd : stepMapFind steps d with
    | none => rw [hd] at hs; simp at hs
    | some sd =>
      obtain ⟨hmem, hname⟩ := stepMapFind_mem hd
      exact List.mem_map.2 ⟨sd, hmem, hname⟩

/-- Second batch of structural facts, on top of `visit_struct`: emitted names
are visited, emitting preserves `Nodup`, and every emitted name is either an
old one, the visited name (resp. a member of the visited list), or the name
of a declared step. -/
theorem visit_struct2 (steps : List WorkflowStep) : ∀ fuel : Nat,
    (∀ n v o v' o', visitF steps fuel n (v, o) = some (v', o') →
      (∀ x, x ∈ o → x ∈ v) →
      (∀ x, x ∈ o' → x ∈ v') ∧ (o.Nodup → o'.Nodup) ∧
      (∀ x, x ∈ o' → x ∈ o ∨ x = n ∨ x ∈ steps.map WorkflowStep.name)) ∧
    (∀ ds v o v' o', visitListF steps fuel ds (v, o) = some (v', o') →
      (∀ x, x ∈ o → x ∈ v) →
      (∀ x, x ∈ o' → x ∈ v') ∧ (o.Nodup → o'.Nodup) ∧
      (∀ x, x ∈ o' → x ∈ o ∨ x ∈ ds ∨ x ∈ steps.map WorkflowStep.name)) := by
  intro fuel
  induction fuel with
  | zero =>
    constructor
    · intro n v o v' o' h
      simp [visitF] at h
    · intro ds v o v' o' h hov
      cases ds with
      | nil =>
        simp [visitListF] at h
        obtain ⟨rfl, rfl⟩ := h
        exact ⟨hov, fun hnd => hnd, fun x hx => Or.inl hx⟩
      | cons d ds =>
        simp [visitListF] at h
  | succ fuel ih =>
    constructor
    · intro n v o v' o' h hov
      rw [visitF] at h
      by_cases hn : n ∈ v
      · simp [hn] at h
        obtain ⟨rfl, rfl⟩ := h
        exact ⟨hov, fun hnd => hnd, fun x hx => Or.inl hx⟩
      · simp [hn] at h
        cases hrec : visitListF steps fuel (stepDeps steps n) (n :: v, o) with
        | none => rw [hrec] at h; simp at h
        | some st2 =>
          obtain ⟨v2, o2⟩ := st2
          rw [hrec] at h
          simp at h
          obtain ⟨rfl, rfl⟩ := h
          have hov' : ∀ x, x ∈ o → x ∈ n :: v :=
            fun x hx => List.mem_cons_of_mem _ (hov x hx)
          obtain ⟨hov2, hnd2, hnames2⟩ := (ih.2) _ _ _ _ _ hrec hov'
          obtain ⟨hsub, _, hgray, _⟩ := (visit_struct steps fuel).2 _ _ _ _ _ hrec
          have hno : ¬ n ∈ o := fun hh => hn (hov n hh)
          have hngray := (hgray n).2 ⟨List.mem_cons_self n v, hno⟩
          refine ⟨?_, ?_, ?_⟩
          · intro x hx
            rcases List.mem_append.1 hx with h1 | h1
            · exact hov2 x h1
            · rw [List.mem_singleton.1 h1]
              exact hsub n (List.mem_cons_self n v)
          · intro hnd
            rw [List.nodup_append]
            exact ⟨hnd2 hnd, List.nodup_singleton n,
              fun a ha hb => hngray.2 ((List.mem_singleton.1 hb) ▸ ha)⟩
          · intro x hx
            rcases List.mem_append.1 hx with h1 | h1
            · rcases hnames2 x h1 with h2 | h2 | h2
              · exact Or.inl h2
              · exact Or.inr (Or.inr (mem_names_of_stepDeps h2))
              · exact Or.inr (Or.inr h2)
            · exact Or.inr (Or.inl (List.mem_singleton.1 h1))
    · intro ds v o v' o' h hov
      cases ds with
      | nil =>
        simp [visitListF] at h
        obtain ⟨rfl, rfl⟩ := h
        exact ⟨hov, fun hnd => hnd, fun x hx => Or.inl hx⟩
      | cons d ds =>
        rw [visitListF] at h
        cases hrec : visitF steps fuel d (v, o) with
        | none => rw [hrec] at h; simp at h
        | some st1 =>
          obtain ⟨v1, o1⟩ := st1
          rw [hrec] at h
          simp at h
          obtain ⟨hov1, hnd1, hnames1⟩ := (ih.1) _ _ _ _ _ hrec hov
          obtain ⟨hov2, hnd2, hnames2⟩ := (ih.2) _ _ _ _ _ h hov1
          refine ⟨hov2, fun hnd => hnd2 (hnd1 hnd), ?_⟩
          intro x hx
          rcases hnames2 x hx with h1 | h1 | h1
          · rcases hnames1 x h1 with h2 | h2 | h2
            · exact Or.inl h2
            · exact Or.inr (Or.inl (h2 ▸ List.mem_cons_self d ds))
            · exact Or.inr (Or.inr h2)
          · exact Or.inr (Or.inl (List.mem_cons_of_mem d h1))
          · exact Or.inr (Or.inr h1)

/-- Growing the visited set cannot increase the number of unvisited names. -/
theorem unvisited_mono {steps : List WorkflowStep} {v v' : List String}
    (h : ∀ x, x ∈ v → x ∈ v') :
    unvisitedCount steps v' ≤ unvisitedCount steps v := by
  unfold unvisitedCount
  refine Finset.card_le_card (Finset.sdiff_subset_sdiff (Finset.Subset.refl _) ?_)
  intro x hx
  exact List.mem_toFinset.2 (h x (List.mem_toFinset.1 hx))

/-- Marking a yet-unvisited declared name visited decreases the number of
unvisited names by exactly one. -/
theorem unvisited_cons {steps : List WorkflowStep} {n : String} {v : List String}
    (hname : n ∈ steps.map WorkflowStep.name) (hnv : ¬ n ∈ v) :
    unvisitedCount steps (n :: v) + 1 = unvisitedCount steps v := by
  unfold unvisitedCount
  have h1 : (n :: v).toFinset = insert n v.toFinset := List.toFinset_cons
  rw [h1, Finset.sdiff_insert]
  have hmem : n ∈ (steps.map WorkflowStep.name).toFinset \ v.toFinset :=
    Finset.mem_sdiff.2 ⟨List.mem_toFinset.2 hname, fun hh => hnv (List.mem_toFinset.1 hh)⟩
  rw [Finset.card_erase_of_mem hmem]
  have hpos : 0 < ((steps.map WorkflowStep.name).toFinset \ v.toFinset).card :=
    Finset.card_pos.2 ⟨n, hmem⟩
  omega

/-- The dependency list `visit` iterates over is never longer than
`depBound`. -/
theorem stepDeps_length_le (steps : List WorkflowStep) (n : String) :
    (stepDeps steps n).length ≤ depBound steps := by
  unfold stepDeps
  cases hf : stepMapFind steps n with
  | none => simp
  | some s =>
    obtain ⟨hmem, _⟩ := stepMapFind_mem hf
    calc (s.dependencies.filter _).length
        ≤ s.dependencies.length := List.length_filter_le _ _
      _ ≤ depBound steps :=
          List.single_le_sum (fun x _ => Nat.zero_le x) _
            (List.mem_map.2 ⟨s, hmem, rfl⟩)

/-- A name that is not a declared step name has no dependencies to follow. -/
theorem stepDeps_of_not_name {steps : List WorkflowStep} {n : String}
    (h : ¬ n ∈ steps.map WorkflowStep.name) : stepDeps steps n = [] := by
  unfold stepDeps
  cases hf : stepMapFind steps n with
  | none => rfl
  | some s =>
    obtain ⟨hmem, hname⟩ := stepMapFind_mem hf
    exact absurd (List.mem_map.2 ⟨s, hmem, hname⟩) h

/-- Fuel sufficiency: with fuel exceeding (a linear function of) the number of
still-unvisited declared names, `visit` never exhausts its fuel. -/
theorem visit_fuel (steps : List WorkflowStep) : ∀ fuel : Nat,
    (∀ n v o, unvisitedCount steps v * (depBound steps + 1) + 1 ≤ fuel →
      (visitF steps fuel n (v, o)).isSome) ∧
    (∀ ds v o, ds.length + unvisitedCount steps v * (depBound steps + 1) + 1 ≤ fuel →
      (visitListF steps fuel ds (v, o)).isSome) := by
  intro fuel
  induction fuel with
  | zero =>
    constructor
    · intro n v o hle
      exact absurd hle (Nat.not_succ_le_zero _)
    · intro ds v o hle
      exact absurd hle (Nat.not_succ_le_zero _)
  | succ fuel ih =>
    constructor
    · intro n v o hle
      rw [visitF]
      by_cases hn : n ∈ v
      · simp [hn]
      · simp only [hn, if_false]
        by_cases hname : n ∈ steps.map WorkflowStep.name
        · have h1 : unvisitedCount steps (n :: v) + 1 = unvisitedCount steps v :=
            unvisited_cons hname hn
          have h2 := stepDeps_length_le steps n
          have h3 : (stepDeps steps n).length +
              unvisitedCount steps (n :: v) * (depBound steps + 1) + 1 ≤ fuel := by
            have he : (unvisitedCount steps (n :: v) + 1) * (depBound steps + 1) =
                unvisitedCount steps (n :: v) * (depBound steps + 1) +
                  depBound steps + 1 := by ring
            rw [← h1] at hle
            rw [he] at hle
            omega
          have h4 := ih.2 (stepDeps steps n) (n :: v) o h3
          obtain ⟨⟨v2, o2⟩, heq⟩ := Option.isSome_iff_exists.1 h4
          rw [heq]
          simp
        · rw [stepDeps_of_not_name hname]
          simp [visitListF]
    · intro ds v o hle
      cases ds with
      | nil => simp [visitListF]
      | cons d ds =>
        rw [visitListF]
        have hf : (visitF steps fuel d (v, o)).isSome := by
          refine ih.1 d v o ?_
          simp only [List.length_cons] at hle
          omega
        obtain ⟨⟨v1, o1⟩, heq⟩ := Option.isSome_iff_exists.1 hf
        rw [heq]
        have hsub := ((visit_struct steps fuel).1 _ _ _ _ _ heq).1
        have hmono : unvisitedCount steps v1 ≤ unvisitedCount steps v :=
          unvisited_mono hsub
        refine ih.2 ds v1 o1 ?_
        have hmul : unvisitedCount steps v1 * (depBound steps + 1) ≤
            unvisitedCount steps v * (depBound steps + 1) :=
          Nat.mul_le_mul_right _ hmono
        simp only [List.length_cons] at hle
        omega

/-- The top-level traversal of `resolve_dependencies` has enough fuel: it
reaches the end of the step list without hitting the fuel cutoff. -/
theorem resolve_some (steps : List WorkflowStep) :
    ∃ v o, visitListF steps (resolveFuel steps) (steps.map WorkflowStep.name)
        ([], []) = some (v, o) ∧ resolve_dependencies steps = o := by
  have h : (steps.map WorkflowStep.name).length +
      unvisitedCount steps [] * (depBound steps + 1) + 1 ≤ resolveFuel steps := by
    unfold resolveFuel
    simp [List.length_map]
    omega
  have := (visit_fuel steps (resolveFuel steps)).2 (steps.map WorkflowStep.name) [] [] h
  obtain ⟨⟨v, o⟩, heq⟩ := Option.isSome_iff_exists.1 this
  refine ⟨v, o, heq, ?_⟩
  unfold resolve_dependencies
  rw [heq]

/-- The order returned by `resolve_dependencies` lists each declared step name
exactly once: it is duplicate-free and its members are exactly the declared
names. -/
theorem resolve_complete (steps : List WorkflowStep) :
    (resolve_dependencies steps).Nodup ∧
    (∀ x, x ∈ resolve_dependencies steps ↔ x ∈ steps.map WorkflowStep.name) := by
  obtain ⟨v, o, heq, hres⟩ := resolve_some steps
  obtain ⟨hsub, _, hgray, hds⟩ := (visit_struct steps (resolveFuel steps)).2 _ _ _ _ _ heq
  obtain ⟨hov, hnodup, honly⟩ := (visit_struct2 steps (resolveFuel steps)).2 _ _ _ _ _ heq
    (fun x hx => absurd hx (List.not_mem_nil x))
  rw [hres]
  constructor
  · exact hnodup List.nodup_nil
  · intro x
    constructor
    · intro hx
      rcases honly x hx with h1 | h1 | h1
      · exact absurd h1 (List.not_mem_nil x)
      · exact h1
      · exact h1
    · intro hx
      have hxv : x ∈ v := hds x hx
      by_contra hxo
      have := (hgray x).1 ⟨hxv, hxo⟩
      exact absurd this.1 (List.not_mem_nil x)

/-- The edge relation `visit` actually follows: step (name) `a` immediately
depends on declared step name `b`. -/
def stepEdge (steps : List WorkflowStep) (a b : String) : Prop :=
  b ∈ stepDeps steps a

/-- The declared dependency relation: some step of the list named `a` lists
`b` among its dependencies. -/
def declEdge (steps : List WorkflowStep) (a b : String) : Prop :=
  ∃ s, s ∈ steps ∧ s.name = a ∧ b ∈ s.dependencies

/-- An order list is topologically sorted: the target of any followed edge
whose source has been emitted is emitted earlier. -/
def TopoSorted (steps : List WorkflowStep) (o : List String) : Prop :=
  ∀ a b, stepEdge steps a b → a ∈ o → b ∈ o ∧ o.indexOf b < o.indexOf a

/-- A followed edge's source is a declared step name. -/
theorem stepEdge_src_mem {steps : List WorkflowStep} {a b : String}
    (h : stepEdge steps a b) : a ∈ steps.map WorkflowStep.name := by
  unfold stepEdge stepDeps at h
  cases hf : stepMapFind steps a with
  | none => rw [hf] at h; exact absurd h (List.not_mem_nil b)
  | some s =>
    obtain ⟨hmem, hname⟩ := stepMapFind_mem hf
    exact List.mem_map.2 ⟨s, hmem, hname⟩

/-- Main invariant of the depth-first traversal on an acyclic graph: provided
every visited-but-unemitted name transitively depends on the name being
visited (it is an ancestor on the recursion stack), visiting keeps the order
topologically sorted and emits the visited name(s). -/
theorem visit_topo (steps : List WorkflowStep)
    (hacyc : ∀ x, ¬ Relation.TransGen (stepEdge steps) x x) : ∀ fuel : Nat,
    (∀ n v o v' o', visitF steps fuel n (v, o) = some (v', o') →
      (∀ g, g ∈ v → ¬ g ∈ o → Relation.TransGen (stepEdge steps) g n) →
      (∀ x, x ∈ o → x ∈ v) → o.Nodup → TopoSorted steps o →
      TopoSorted steps o' ∧ n ∈ o') ∧
    (∀ ds v o v' o', visitListF steps fuel ds (v, o) = some (v', o') →
      (∀ g, g ∈ v → ¬ g ∈ o → ∀ d, d ∈ ds → Relation.TransGen (stepEdge steps) g d) →
      (∀ x, x ∈ o → x ∈ v) → o.Nodup → TopoSorted steps o →
      TopoSorted steps o' ∧ (∀ d, d ∈ ds → d ∈ o')) := by
  intro fuel
  induction fuel with
  | zero =>
    constructor
    · intro n v o v' o' h
      simp [visitF] at h
    · intro ds v o v' o' h hgrays hov hnd hts
      cases ds with
      | nil =>
        simp [visitListF] at h
        obtain ⟨rfl, rfl⟩ := h
        exact ⟨hts, fun d hd => absurd hd (List.not_mem_nil d)⟩
      | cons d ds =>
        simp [visitListF] at h
  | succ fuel ih =>
    constructor
    · intro n v o v' o' h hgrays hov hnd hts
      rw [visitF] at h
      by_cases hn : n ∈ v
      · simp [hn] at h
        obtain ⟨rfl, rfl⟩ := h
        refine ⟨hts, ?_⟩
        by_contra hno
        exact hacyc n (hgrays n hn hno)
      · simp [hn] at h
        cases hrec : visitListF steps fuel (stepDeps steps n) (n :: v, o) with
        | none => rw [hrec] at h; simp at h
        | some st2 =>
          obtain ⟨v2, o2⟩ := st2
          rw [hrec] at h
          simp at h
          obtain ⟨rfl, rfl⟩ := h
          have hno : ¬ n ∈ o := fun hh => hn (hov n hh)
          have hgrays' : ∀ g, g ∈ n :: v → ¬ g ∈ o →
              ∀ d, d ∈ stepDeps steps n → Relation.TransGen (stepEdge steps) g d := by
            intro g hg hgo d hd
            rcases List.mem_cons.1 hg with rfl | hgv
            · exact Relation.TransGen.single hd
            · exact Relation.TransGen.tail (hgrays g hgv hgo) hd
          have hov' : ∀ x, x ∈ o → x ∈ n :: v :=
            fun x hx => List.mem_cons_of_mem _ (hov x hx)
          obtain ⟨hsorted2, hds2⟩ := ih.2 _ _ _ _ _ hrec hgrays' hov' hnd hts
          obtain ⟨hsub, _, hgray2, _⟩ := (visit_struct steps fuel).2 _ _ _ _ _ hrec
          have hno2 : ¬ n ∈ o2 :=
            ((hgray2 n).2 ⟨List.mem_cons_self n v, hno⟩).2
          constructor
          · intro a b hedge ha
            rcases List.mem_append.1 ha with ha2 | ha2
            · obtain ⟨hb2, hlt⟩ := hsorted2 a b hedge ha2
              refine ⟨List.mem_append_left _ hb2, ?_⟩
              rw [List.indexOf_append_of_mem hb2, List.indexOf_append_of_mem ha2]
              exact hlt
            · have han : a = n := List.mem_singleton.1 ha2
              subst han
              have hb2 : b ∈ o2 := hds2 b hedge
              refine ⟨List.mem_append_left _ hb2, ?_⟩
              rw [List.indexOf_append_of_mem hb2,
                List.indexOf_append_of_not_mem hno2, List.indexOf_cons_self]
              have := List.indexOf_lt_length.2 hb2
              omega
          · exact List.mem_append_right _ (List.mem_singleton.2 rfl)
    · intro ds v o v' o' h hgrays hov hnd hts
      cases ds with
      | nil =>
        simp [visitListF] at h
        obtain ⟨rfl, rfl⟩ := h
        exact ⟨hts, fun d hd => absurd hd (List.not_mem_nil d)⟩
      | cons d ds =>
        rw [visitListF] at h
        cases hrec : visitF steps fuel d (v, o) with
        | none => rw [hrec] at h; simp at h
        | some st1 =>
          obtain ⟨v1, o1⟩ := st1
          rw [hrec] at h
          simp at h
          obtain ⟨hsorted1, hd1⟩ := ih.1 _ _ _ _ _ hrec
            (fun g hg hgo => hgrays g hg hgo d (List.mem_cons_self d ds)) hov hnd hts
          obtain ⟨hsub1, _, hgray1, _⟩ := (visit_struct steps fuel).1 _ _ _ _ _ hrec
          obtain ⟨hov1, hnd1, _⟩ := (visit_struct2 steps fuel).1 _ _ _ _ _ hrec hov
          have hgrays1 : ∀ g, g ∈ v1 → ¬ g ∈ o1 →
              ∀ e, e ∈ ds → Relation.TransGen (stepEdge steps) g e := by
            intro g hg hgo e he
            obtain ⟨hgv, hgo0⟩ := (hgray1 g).1 ⟨hg, hgo⟩
            exact hgrays g hgv hgo0 e (List.mem_cons_of_mem d he)
          obtain ⟨hsorted', hds'⟩ := ih.2 _ _ _ _ _ h hgrays1 hov1 (hnd1 hnd) hsorted1
          obtain ⟨_, ⟨t2, ht2⟩, _, _⟩ := (visit_struct steps fuel).2 _ _ _ _ _ h
          refine ⟨hsorted', ?_⟩
          intro e he
          rcases List.mem_cons.1 he with rfl | hh
          · rw [ht2]; exact List.mem_append_left _ hd1
          · exact hds' e hh

/-- `resolve_dependencies` of an acyclic (with respect to the followed edges)
workflow is topologically sorted. -/
theorem resolve_topoSorted (steps : List WorkflowStep)
    (hacyc : ∀ x, ¬ Relation.TransGen (stepEdge steps) x x) :
    TopoSorted steps (resolve_dependencies steps) := by
  obtain ⟨v, o, heq, hres⟩ := resolve_some steps
  have := ((visit_topo steps hacyc (resolveFuel steps)).2 _ _ _ _ _ heq
    (fun g hg => absurd hg (List.not_mem_nil g))
    (fun x hx => absurd hx (List.not_mem_nil x))
    List.nodup_nil
    (fun a b _ ha => absurd ha (List.not_mem_nil a))).1
  rw [hres]
  exact this

/-- A declared step name hits the `step_map`. -/
theorem stepMapFind_isSome_of_mem {steps : List WorkflowStep} {n : String}
    (h : n ∈ steps.map WorkflowStep.name) : (stepMapFind steps n).isSome := by
  obtain ⟨s, hs, hname⟩ := List.mem_map.1 h
  unfold stepMapFind
  refine List.getLast?_isSome.mpr ?_
  exact List.ne_nil_of_mem (List.mem_filter.2 ⟨hs, by simp [hname]⟩)

/-- With duplicate-free step names, the `step_map` lookup returns the unique
declared step with the looked-up name. -/
theorem stepMapFind_of_nodup {steps : List WorkflowStep} {s : WorkflowStep} {a : String}
    (hnd : (steps.map WorkflowStep.name).Nodup) (hs : s ∈ steps) (hname : s.name = a) :
    stepMapFind steps a = some s := by
  induction steps with
  | nil => exact absurd hs (List.not_mem_nil s)
  | cons t rest ih =>
    simp only [List.map_cons, List.nodup_cons] at hnd
    obtain ⟨htn, hrest⟩ := hnd
    rcases List.mem_cons.1 hs with rfl | hmem
    · have hfilt : rest.filter (fun x => x.name = a) = [] := by
        refine List.filter_eq_nil_iff.2 ?_
        intro r hr
        simp only [decide_eq_true_eq]
        intro hra
        exact htn (hname ▸ hra ▸ List.mem_map.2 ⟨r, hr, rfl⟩)
      unfold stepMapFind
      rw [List.filter_cons]
      simp [hname, hfilt]
    · have hta : ¬ (t.name = a) := by
        intro hh
        refine htn ?_
        rw [hh, ← hname]
        exact List.mem_map.2 ⟨s, hmem, rfl⟩
      have := ih hrest hmem
      unfold stepMapFind at this ⊢
      rw [List.filter_cons]
      simp only [hta, decide_eq_true_eq, if_false]
      exact this

/-- Any followed edge is a declared dependency. -/
theorem declEdge_of_stepEdge {steps : List WorkflowStep} {a b : String}
    (h : stepEdge steps a b) : declEdge steps a b := by
  unfold stepEdge stepDeps at h
  cases hf : stepMapFind steps a with
  | none => rw [hf] at h; exact absurd h (List.not_mem_nil b)
  | some s =>
    rw [hf] at h
    obtain ⟨hmem, hname⟩ := stepMapFind_mem hf
    exact ⟨s, hmem, hname, (List.mem_filter.1 h).1⟩

/-- Under unique step names with dependencies naming declared steps, every
declared dependency is a followed edge. -/
theorem stepEdge_of_declEdge {steps : List WorkflowStep} {a b : String}
    (hnd : (steps.map WorkflowStep.name).Nodup)
    (hdeps : ∀ s, s ∈ steps → ∀ d, d ∈ s.dependencies → d ∈ steps.map WorkflowStep.name)
    (h : declEdge steps a b) : stepEdge steps a b := by
  obtain ⟨s, hs, hname, hb⟩ := h
  unfold stepEdge stepDeps
  rw [stepMapFind_of_nodup hnd hs hname]
  exact List.mem_filter.2 ⟨hb, by simp [stepMapFind_isSome_of_mem (hdeps s hs b hb)]⟩

/-- The registry of task handlers built by `DynamicToolGenerator`
(`task_registry_`), keyed by task name.  Handlers have the server's
`ToolFunction` shape and may throw (`Except.error`). -/
def TaskRegistry := String → Option (Json → Except String Json)

/-- `json step_params = params;` followed by the input-mapping loop of
`WorkflowExecutor::execute`: for each `(param_name, mapping_value)` pair in
the map's key order, `step_params[param_name] =
replace_variables(mapping_value, step_results)`. -/
def prepareStepParams (params : Json) (input_mapping : List (String × String))
    (results : Smap) : Except String Json :=
  input_mapping.foldlM
    (fun acc kv =>
      Json.setKey acc kv.1 (WorkflowExecutor.replace_variables (.str kv.2) results))
    params

/-- The output-mapping loop of `WorkflowExecutor::execute`
(`step_results[mapped_name] = result[result_key]` for each pair whose key the
result contains) followed by `step_results[step_name] = result`. -/
def recordStep (results : Smap) (step : WorkflowStep) (result : Json) : Smap :=
  let withOut := step.output_mapping.foldl
    (fun acc kv =>
      match result.lookup kv.1 with
      | some v => Smap.insert acc kv.2 v
      | none => acc)
    results
  Smap.insert withOut step.name result

/-- `result.value("error", "Unknown error")`, typed at `std::string`: the
`error` member if it is present (a non-string member makes the conversion
throw), else the default text. -/
def errorField (result : Json) : Except String Json :=
  match result.lookup "error" with
  | none => .ok (.str "Unknown error")
  | some (.str s) => .ok (.str s)
  | some _ => .error "type_error.302 type must be string"

/-- Outcome of the step loop of `WorkflowExecutor::execute`: an early
`return` with a response object, a C++ exception propagating to the
enclosing `catch`, or completion with the final environment. -/
inductive StepsOutcome where
  | halted (response : Json)
  | threw (msg : String)
  | completed (results : Smap)

/-- The `for (const auto& step_name : execution_order)` loop of
`WorkflowExecutor::execute`: look the step up by name (first declared match),
build its parameters from the workflow arguments and the input mapping,
invoke the task handler, record the output mapping and the whole result, and
short-circuit when the result carries `success: false`. -/
def runSteps (steps : List WorkflowStep) (registry : TaskRegistry) (params : Json) :
    List String → Smap → StepsOutcome
  | [], results => .completed results
  | step_name :: rest, results =>
    match steps.find? (fun s => s.name = step_name) with
    | none => .halted (create_error_response ("Step not found: " ++ step_name))
    | some step =>
      match prepareStepParams params step.input_mapping results with
      | .error e => .threw e
      | .ok step_params =>
        match registry step.task with
        | none => .halted (create_error_response ("Task not found: " ++ step.task))
        | some handler =>
          match handler step_params with
          | .error e => .threw e
          | .ok result =>
            let results2 := recordStep results step result
            match result.lookup "success" with
            | some sv =>
              match sv.getBool with
              | .error e => .threw e
              | .ok b =>
                if b then runSteps steps registry params rest results2
                else
                  match errorField result with
                  | .error e => .threw e
                  | .ok errv =>
                    .halted (.obj [("success", .boolean false),
                      ("failed_step", .str step_name),
                      ("error", errv),
                      ("step_results", .obj results2)])
            | none => runSteps steps registry params rest results2

/-- `WorkflowExecutor::execute`. -/
def WorkflowExecutor.execute (registry : TaskRegistry) (workflow : WorkflowConfig)
    (params : Json) : Json :=
  let execution_order := resolve_dependencies workflow.steps
  match runSteps workflow.steps registry params execution_order [] with
  | .halted r => r
  | .threw e => create_error_response ("Workflow error: " ++ e)
  | .completed results =>
    .obj [("success", .boolean true),
      ("workflow", .str workflow.name),
      ("steps_executed", .intNum execution_order.length),
      ("step_results", .obj results)]

/-- Outcome of the parameter loop of the task-tool handler created by
`DynamicToolGenerator::create_task_tool`: an early return with a
missing-parameter error response, a thrown json error, or the filled
parameter object. -/
inductive ParamFill where
  | missing (name : String)
  | filled (params : Json)
  | threw (msg : String)

/-- The `for (const auto& param : task.parameters)` loop of the task-tool
handler: a supplied value is kept, else a non-null default is inserted, else
a required parameter aborts with a missing-parameter error; anything else is
skipped.  No type validation of supplied values takes place
(`validate_parameter_type` is never called). -/
def fillParams : List TaskParameter → Json → ParamFill
  | [], params => .filled params
  | p :: rest, params =>
    if (params.lookup p.name).isSome then fillParams rest params
    else if p.default_value.isNull = false then
      match Json.setKey params p.name p.default_value with
      | .ok params2 => fillParams rest params2
      | .error e => .threw e
    else if p.required then .missing p.name
    else fillParams rest params

/-- The executor table of `DynamicToolGenerator` (`executors_`), keyed by
operation type.  The concrete executors are external collaborators here; each
wraps its body in try/catch and never throws across the boundary, so they
are modelled as total functions of `(task_config, params)`. -/
def ExecutorTable := String → Option (Json → Json → Json)

/-- The tool-handler lambda created by `DynamicToolGenerator::create_task_tool`:
resolve the declared parameters against the caller's arguments, then
dispatch on the task's operation type. -/
def createTaskToolHandler (executors : ExecutorTable) (task : TaskConfig)
    (arguments : Json) : Except String Json :=
  match fillParams task.parameters arguments with
  | .threw e => .error e
  | .missing n => .ok (create_error_response ("Missing required parameter: " ++ n))
  | .filled params =>
    match executors task.operation_type with
    | none => .ok (create_error_response ("Unknown operation type: " ++ task.operation_type))
    | some ex => .ok (ex task.config params)

end DynamicMcp

namespace DynamicMcp

open Mcp

/-- C3: for every workflow with unique step names whose dependency entries
name steps of the same workflow and whose step graph is a DAG (the declared
dependency relation has no cycle), the execution order produced by
`WorkflowExecutor::resolve_dependencies` places each step strictly after every
step it transitively depends on. -/
theorem claim_C3_topological_execution (steps : List WorkflowStep)
    (hnd : (steps.map WorkflowStep.name).Nodup)
    (hdeps : ∀ s, s ∈ steps → ∀ d, d ∈ s.dependencies → d ∈ steps.map WorkflowStep.name)
    (hacyc : ∀ x, ¬ Relation.TransGen (declEdge steps) x x)
    (a b : String) (hab : Relation.TransGen (declEdge steps) a b) :
    (resolve_dependencies steps).indexOf b < (resolve_dependencies steps).indexOf a := by
  have hacyc' : ∀ x, ¬ Relation.TransGen (stepEdge steps) x x := by
    intro x hx
    exact hacyc x (Relation.TransGen.mono (fun p q h => declEdge_of_stepEdge h) hx)
  have hts := resolve_topoSorted steps hacyc'
  obtain ⟨_, hmem⟩ := resolve_complete steps
  have hab' : Relation.TransGen (stepEdge steps) a b :=
    Relation.TransGen.mono (fun p q h => stepEdge_of_declEdge hnd hdeps h) hab
  clear hab
  induction hab' with
  | single h1 =>
    have ha : a ∈ resolve_dependencies steps := (hmem a).2 (stepEdge_src_mem h1)
    exact (hts a _ h1 ha).2
  | tail h1 h2 ih =>
    have hc := (hmem _).2 (stepEdge_src_mem h2)
    exact Nat.lt_trans (hts _ _ h2 hc).2 ih

/-- The two-step acyclic workflow used to instantiate C3: step "a" depends on
step "b". -/
def demoStepA : WorkflowStep := ⟨"a", "t", ["b"], [], []⟩

/-- Second step of the C3 instance. -/
def demoStepB : WorkflowStep := ⟨"b", "t", [], [], []⟩

/-- The only declared edge of the C3 instance goes from "a" to "b". -/
theorem demo_edge_char (x y : String)
    (h : declEdge [demoStepA, demoStepB] x y) : x = "a" ∧ y = "b" := by
  obtain ⟨s, hs, hname, hy⟩ := h
  rcases List.mem_cons.1 hs with rfl | hs2
  · exact ⟨hname.symm, (List.mem_singleton.1 hy)⟩
  · rcases List.mem_cons.1 hs2 with rfl | hs3
    · exact absurd hy (List.not_mem_nil y)
    · exact absurd hs3 (List.not_mem_nil s)

/-- The C3 instance has no dependency cycle. -/
theorem demo_acyclic : ∀ x, ¬ Relation.TransGen (declEdge [demoStepA, demoStepB]) x x := by
  have hchar : ∀ x y, Relation.TransGen (declEdge [demoStepA, demoStepB]) x y →
      x = "a" ∧ y = "b" := by
    intro x y h
    induction h with
    | single h1 => exact demo_edge_char _ _ h1
    | tail h1 h2 ih =>
      obtain ⟨_, hmb⟩ := ih
      obtain ⟨hma, _⟩ := demo_edge_char _ _ h2
      rw [hmb] at hma
      exact absurd hma (by decide)
  intro x hx
  obtain ⟨h1, h2⟩ := hchar x x hx
  rw [h1] at h2
  exact absurd h2 (by decide)

/-- Closed instance of C3: in the order computed for the demo workflow, "b"
comes strictly before the step "a" that depends on it. -/
theorem claim_C3_witness :
    (resolve_dependencies [demoStepA, demoStepB]).indexOf "b" <
      (resolve_dependencies [demoStepA, demoStepB]).indexOf "a" :=
  claim_C3_topological_execution [demoStepA, demoStepB]
    (by decide)
    (by decide)
    demo_acyclic
    "a" "b" (Relation.TransGen.single ⟨demoStepA, List.mem_cons_self _ _, rfl, by decide⟩)

/-- C10: `WorkflowExecutor::resolve_dependencies` terminates on every list of
workflow steps (the traversal completes; cycles and unknown dependency names
included), and the order it returns contains each declared step's name
exactly once and contains only declared names. -/
theorem claim_C10_termination_exactly_once (steps : List WorkflowStep) :
    (visitListF steps (resolveFuel steps) (steps.map WorkflowStep.name) ([], [])).isSome ∧
    (resolve_dependencies steps).Nodup ∧
    (∀ s, s ∈ steps → (resolve_dependencies steps).count s.name = 1) ∧
    (∀ x, x ∈ resolve_dependencies steps → x ∈ steps.map WorkflowStep.name) := by
  obtain ⟨v, o, heq, hres⟩ := resolve_some steps
  obtain ⟨hnd, hmem⟩ := resolve_complete steps
  refine ⟨by rw [heq]; simp, hnd, ?_, fun x hx => (hmem x).1 hx⟩
  intro s hs
  exact List.count_eq_one_of_mem hnd ((hmem s.name).2 (List.mem_map.2 ⟨s, hs, rfl⟩))

/-- First step of a cyclic workflow (also carrying an unknown dependency
name) used to instantiate C10. -/
def cycStepA : WorkflowStep := ⟨"a", "t", ["b", "zz"], [], []⟩

/-- Second step of the cyclic C10 instance, closing the cycle. -/
def cycStepB : WorkflowStep := ⟨"b", "t", ["a"], [], []⟩

/-- Closed instance of C10 on a cyclic graph with an unknown dependency
name: resolution still emits step "a" exactly once. -/
theorem claim_C10_witness :
    (resolve_dependencies [cycStepA, cycStepB]).count "a" = 1 :=
  (claim_C10_termination_exactly_once [cycStepA, cycStepB]).2.2.1 cycStepA
    (List.mem_cons_self _ _)

/-- C8: when a step's task result is an object whose `success` member is the
boolean `false`, the workflow executor's step loop runs no further steps (the
remaining execution order does not influence the outcome) and returns the
failure object carrying `success: false`, the failing step's name, the
result's `error` member (the `error` field when it is a string, the default
"Unknown error" when absent), and the environment accumulated so far,
including the failing step's output-mapping bindings and whole result. -/
theorem claim_C8_failure_short_circuit
    (steps : List WorkflowStep) (registry : TaskRegistry) (params : Json)
    (step_name : String) (rest : List String) (results : Smap)
    (step : WorkflowStep) (handler : Json → Except String Json)
    (step_params result errv : Json)
    (hfind : steps.find? (fun s => s.name = step_name) = some step)
    (hprep : prepareStepParams params step.input_mapping results = .ok step_params)
    (hreg : registry step.task = some handler)
    (hrun : handler step_params = .ok result)
    (hfail : result.lookup "success" = some (.boolean false))
    (herr : errorField result = .ok errv) :
    runSteps steps registry params (step_name :: rest) results =
      .halted (.obj [("success", .boolean false),
        ("failed_step", .str step_name),
        ("error", errv),
        ("step_results", .obj (recordStep results step result))]) := by
  rw [runSteps, hfind]
  simp [hprep, hreg, hrun, hfail, herr, Json.getBool]

/-- The failing step of the C8 instance, with one output-mapping pair. -/
def failStep : WorkflowStep := ⟨"s1", "t", [], [], [("data", "d")]⟩

/-- The failing result the C8 instance's task returns. -/
def failResult : Json :=
  .obj [("success", .boolean false), ("error", .str "boom"), ("data", .intNum 1)]

/-- The one-task registry of the C8 instance. -/
def failRegistry : TaskRegistry :=
  fun t => if t = "t" then some (fun _ => .ok failResult) else none

/-- Closed instance of C8: with a further step name still pending, the run
halts at "s1" and reports its error and the recorded environment. -/
theorem claim_C8_witness :
    runSteps [failStep] failRegistry (.obj []) ["s1", "never_run"] [] =
      .halted (.obj [("success", .boolean false),
        ("failed_step", .str "s1"),
        ("error", .str "boom"),
        ("step_results", .obj (recordStep [] failStep failResult))]) :=
  claim_C8_failure_short_circuit [failStep] failRegistry (.obj []) "s1" ["never_run"] []
    failStep (fun _ => .ok failResult) (.obj []) failResult (.str "boom")
    rfl rfl rfl rfl rfl rfl

/-- C9: substitution fidelity of `WorkflowExecutor::replace_variables`:
substituting "\x7bx\x7d" against x bound to "hello" yields "hello"; against
x bound to 42 yields "42"; "a\x7bx\x7db" against x bound to "-" yields
"a-b"; and a placeholder whose name is not bound is left literal. -/
theorem claim_C9_substitution_fidelity :
    WorkflowExecutor.replace_variables (.str "\x7bx\x7d") [("x", .str "hello")] =
      .str "hello" ∧
    WorkflowExecutor.replace_variables (.str "\x7bx\x7d") [("x", .intNum 42)] =
      .str "42" ∧
    WorkflowExecutor.replace_variables (.str "a\x7bx\x7db") [("x", .str "-")] =
      .str "a-b" ∧
    WorkflowExecutor.replace_variables (.str "\x7by\x7d") [("x", .str "hello")] =
      .str "\x7by\x7d" :=
  ⟨rfl, rfl, rfl, rfl⟩

/-- The one-step workflow of the C4 instance: its only step maps parameter
"k" to the template "\x7ba\x7d", referring to the workflow input argument
"a". -/
def cexStep : WorkflowStep := ⟨"s1", "t", [], [("k", "\x7ba\x7d")], []⟩

/-- The C4 instance's workflow. -/
def cexWorkflow : WorkflowConfig := ⟨"wf", "", [], [cexStep]⟩

/-- The C4 instance's registry: the task echoes the parameters it receives. -/
def cexRegistry : TaskRegistry :=
  fun t =>
    if t = "t" then some (fun p => .ok (.obj [("echo", p), ("success", .boolean true)]))
    else none

/-- Extracts, from a workflow response, the "k" parameter step "s1"'s task
handler received (the handler echoes its parameters). -/
def cexReceivedK (response : Json) : Option Json :=
  (((response.lookup "step_results").bind (fun r => r.lookup "s1")).bind
    (fun r => r.lookup "echo")).bind (fun r => r.lookup "k")

/-- C4 is false as stated: calling the workflow with input argument a = 1,
the claim predicts the handler receives k = "1" (the template substituted
against an environment containing the input arguments), but the handler
receives the literal template "\x7ba\x7d" — the substitution environment
starts empty and never contains the input arguments. -/
theorem claim_C4_counterexample :
    cexReceivedK (WorkflowExecutor.execute cexRegistry cexWorkflow
        (.obj [("a", .intNum 1)])) = some (.str "\x7ba\x7d") ∧
    ¬ cexReceivedK (WorkflowExecutor.execute cexRegistry cexWorkflow
        (.obj [("a", .intNum 1)])) = some (.str "1") := by
  constructor
  · rfl
  · intro h
    have h0 : cexReceivedK (WorkflowExecutor.execute cexRegistry cexWorkflow
        (.obj [("a", .intNum 1)])) = some (.str "\x7ba\x7d") := rfl
    rw [h0] at h
    injection h with h1
    injection h1 with h2
    exact absurd h2 (by decide)

/-- Modelled on the amended claim's wording: substitute every input-mapping
template against the step-results environment first, then merge the
substituted pairs into the workflow arguments in mapping order. -/
def claimedStepParams (params : Json) (input_mapping : List (String × String))
    (results : Smap) : Except String Json :=
  (input_mapping.map
    (fun kv => (kv.1, WorkflowExecutor.replace_variables (.str kv.2) results))).foldlM
    (fun acc kv => Json.setKey acc kv.1 kv.2) params

/-- C4 (amended): the parameters passed to a step's task handler equal the
workflow's input arguments merged with the step's input-mapping entries
substituted against the step-results environment only — the variables bound
by earlier steps' output mappings and earlier whole step results; the input
arguments are not part of the substitution environment, and earlier-step
variables are not merged into the parameters unless explicitly mapped.  On a
successful result the loop continues with the recorded environment. -/
theorem claim_C4_amended_step_params :
    (∀ params input_mapping results,
      prepareStepParams params input_mapping results =
        claimedStepParams params input_mapping results) ∧
    (∀ (steps : List WorkflowStep) (registry : TaskRegistry) (params : Json)
        (step_name : String) (rest : List String) (results : Smap)
        (step : WorkflowStep) (handler : Json → Except String Json) (sp result : Json),
      steps.find? (fun s => s.name = step_name) = some step →
      registry step.task = some handler →
      claimedStepParams params step.input_mapping results = .ok sp →
      handler sp = .ok result →
      (result.lookup "success" = none ∨ result.lookup "success" = some (.boolean true)) →
      runSteps steps registry params (step_name :: rest) results =
        runSteps steps registry params rest (recordStep results step result)) := by
  have hpart1 : ∀ params input_mapping results,
      prepareStepParams params input_mapping results =
        claimedStepParams params input_mapping results := by
    intro params im results
    induction im generalizing params with
    | nil => rfl
    | cons kv rest ih =>
      simp only [prepareStepParams, claimedStepParams, List.map_cons, List.foldlM_cons]
      cases hset : Json.setKey params kv.1
          (WorkflowExecutor.replace_variables (.str kv.2) results) with
      | error e => rfl
      | ok acc => exact ih acc
  refine ⟨hpart1, ?_⟩
  intro steps registry params step_name rest results step handler sp result
    hfind hreg hsp hrun hsucc
  rw [← hpart1 params step.input_mapping results] at hsp
  rw [runSteps, hfind]
  rcases hsucc with hs | hs
  · simp [hsp, hreg, hrun, hs]
  · simp [hsp, hreg, hrun, hs, Json.getBool]

/-- Closed instance of the amended C4: the echoing task's step runs on the
input arguments merged with the literally-kept template (the step-results
environment is empty), and the loop continues. -/
theorem claim_C4_witness :
    runSteps [cexStep] cexRegistry (.obj [("a", .intNum 1)]) ["s1"] [] =
      runSteps [cexStep] cexRegistry (.obj [("a", .intNum 1)]) []
        (recordStep [] cexStep
          (.obj [("echo", .obj [("a", .intNum 1), ("k", .str "\x7ba\x7d")]),
            ("success", .boolean true)])) :=
  claim_C4_amended_step_params.2 [cexStep] cexRegistry (.obj [("a", .intNum 1)])
    "s1" [] [] cexStep
    (fun p => .ok (.obj [("echo", p), ("success", .boolean true)]))
    (.obj [("a", .intNum 1), ("k", .str "\x7ba\x7d")])
    (.obj [("echo", .obj [("a", .intNum 1), ("k", .str "\x7ba\x7d")]),
      ("success", .boolean true)])
    rfl rfl rfl rfl (Or.inr rfl)

/-- Setting one key leaves the lookup of a different key unchanged. -/
theorem lookupPairs_setPairs_ne (kvs : List (String × Json)) (k k' : String) (v : Json)
    (h : ¬ k = k') : lookupPairs (setPairs kvs k v) k' = lookupPairs kvs k' := by
  induction kvs with
  | nil => simp [setPairs, lookupPairs, h]
  | cons kv rest ih =>
    obtain ⟨a, b⟩ := kv
    by_cases ha : a = k
    · subst ha
      simp [setPairs, lookupPairs, h]
    · simp only [setPairs, ha, if_false, lookupPairs]
      by_cases ha' : a = k'
      · simp [ha']
      · simp [ha', ih]

/-- Looking up the key just set succeeds. -/
theorem lookupPairs_setPairs_self (kvs : List (String × Json)) (k : String) (v : Json) :
    lookupPairs (setPairs kvs k v) k = some v := by
  induction kvs with
  | nil => simp [setPairs, lookupPairs]
  | cons kv rest ih =>
    obtain ⟨a, b⟩ := kv
    by_cases ha : a = k
    · subst ha
      simp [setPairs, lookupPairs]
    · simp [setPairs, ha, lookupPairs, ih]

/-- Setting a key cannot make another lookup fail. -/
theorem lookupPairs_setPairs_isSome (kvs : List (String × Json)) (k k' : String) (v : Json)
    (h : (lookupPairs kvs k').isSome) :
    (lookupPairs (setPairs kvs k v) k').isSome := by
  by_cases hk : k = k'
  · subst hk
    rw [lookupPairs_setPairs_self]
    rfl
  · rw [lookupPairs_setPairs_ne _ _ _ _ hk]
    exact h

/-- The task configuration of the C5 instance: one required integer
parameter without default. -/
def c5Task : TaskConfig := ⟨"t5", "", "x", .null, [⟨"n", "integer", true, "", .null⟩]⟩

/-- The C5 instance's executor table: the executor echoes its parameters. -/
def c5Executors : ExecutorTable :=
  fun op =>
    if op = "x" then some (fun _ p => .obj [("gotParams", p), ("success", .boolean true)])
    else none

/-- C5 is false as stated: supplying the string "hi" for the declared integer
parameter "n" produces no invalid-parameter-type error — the synthesised
handler passes the mismatched value through to the executor unchanged and
returns the executor's result, even though the (never invoked)
`validate_parameter_type` would have rejected the value. -/
theorem claim_C5_counterexample :
    createTaskToolHandler c5Executors c5Task (.obj [("n", .str "hi")]) =
      .ok (.obj [("gotParams", .obj [("n", .str "hi")]), ("success", .boolean true)]) ∧
    validate_parameter_type "integer" (.str "hi") = false :=
  ⟨rfl, rfl⟩

/-- C5 (amended): parameters are resolved in declaration order — a supplied
value is used if present, else a declared non-null default, else a missing
required parameter fails with a missing-parameter error response naming the
parameter; supplied values are never type-checked, so a value of mismatching
JSON type is passed through to the executor unchanged. -/
theorem claim_C5_amended_resolution (executors : ExecutorTable) (task : TaskConfig) :
    (∀ args : Json, (∀ p, p ∈ task.parameters → (args.lookup p.name).isSome) →
      createTaskToolHandler executors task args =
        (match executors task.operation_type with
         | none => .ok (create_error_response
             ("Unknown operation type: " ++ task.operation_type))
         | some ex => .ok (ex task.config args))) ∧
    (∀ (kvs : List (String × Json)) (pre : List TaskParameter) (p : TaskParameter)
        (post : List TaskParameter),
      task.parameters = pre ++ p :: post →
      (∀ q, q ∈ pre → ((Json.obj kvs).lookup q.name).isSome ∨
        q.default_value.isNull = false ∨ q.required = false) →
      (∀ q, q ∈ pre → ¬ q.name = p.name) →
      (Json.obj kvs).lookup p.name = none →
      p.default_value.isNull = true → p.required = true →
      createTaskToolHandler executors task (.obj kvs) =
        .ok (create_error_response ("Missing required parameter: " ++ p.name))) := by
  have hfillA : ∀ (ps : List TaskParameter) (args : Json),
      (∀ p, p ∈ ps → (args.lookup p.name).isSome) → fillParams ps args = .filled args := by
    intro ps
    induction ps with
    | nil => intro args _; rfl
    | cons p rest ih =>
      intro args hsup
      rw [fillParams]
      simp only [hsup p (List.mem_cons_self p rest), if_true]
      exact ih args (fun q hq => hsup q (List.mem_cons_of_mem _ hq))
  have hfillB : ∀ (pre : List TaskParameter) (p : TaskParameter)
      (post : List TaskParameter) (kvs : List (String × Json)),
      (∀ q, q ∈ pre → ((Json.obj kvs).lookup q.name).isSome ∨
        q.default_value.isNull = false ∨ q.required = false) →
      (∀ q, q ∈ pre → ¬ q.name = p.name) →
      (Json.obj kvs).lookup p.name = none →
      p.default_value.isNull = true → p.required = true →
      fillParams (pre ++ p :: post) (.obj kvs) = .missing p.name := by
    intro pre
    induction pre with
    | nil =>
      intro p post kvs _ _ hpnone hpdef hpreq
      rw [List.nil_append, fillParams]
      simp [hpnone, hpdef, hpreq]
    | cons q pre ih =>
      intro p post kvs hdisj hne hpnone hpdef hpreq
      rw [List.cons_append, fillParams]
      by_cases hsup : ((Json.obj kvs).lookup q.name).isSome
      · simp only [hsup, if_true]
        exact ih p post kvs (fun r hr => hdisj r (List.mem_cons_of_mem _ hr))
          (fun r hr => hne r (List.mem_cons_of_mem _ hr)) hpnone hpdef hpreq
      · simp only [hsup, if_false]
        by_cases hdef : q.default_value.isNull = false
        · simp only [hdef, if_true, Json.setKey]
          refine ih p post (setPairs kvs q.name q.default_value) ?_
            (fun r hr => hne r (List.mem_cons_of_mem _ hr)) ?_ hpdef hpreq
          · intro r hr
            rcases hdisj r (List.mem_cons_of_mem _ hr) with h1 | h1 | h1
            · exact Or.inl (lookupPairs_setPairs_isSome _ _ _ _ h1)
            · exact Or.inr (Or.inl h1)
            · exact Or.inr (Or.inr h1)
          · show lookupPairs (setPairs kvs q.name q.default_value) p.name = none
            rw [lookupPairs_setPairs_ne _ _ _ _ (hne q (List.mem_cons_self q pre))]
            exact hpnone
        · have hreq : q.required = false := by
            rcases hdisj q (List.mem_cons_self q pre) with h1 | h1 | h1
            · exact absurd h1 hsup
            · exact absurd h1 hdef
            · exact h1
          rw [if_neg hdef, hreq, if_neg (by simp)]
          exact ih p post kvs (fun r hr => hdisj r (List.mem_cons_of_mem _ hr))
            (fun r hr => hne r (List.mem_cons_of_mem _ hr)) hpnone hpdef hpreq
  constructor
  · intro args hsup
    unfold createTaskToolHandler
    rw [hfillA task.parameters args hsup]
  · intro kvs pre p post hps hdisj hne hpnone hpdef hpreq
    unfold createTaskToolHandler
    rw [hps, hfillB pre p post kvs hdisj hne hpnone hpdef hpreq]

/-- Parameters of the C5 witness task: an optional-by-default parameter "q"
(non-null default) followed by a required parameter "p" without default. -/
def c5wTask : TaskConfig :=
  ⟨"t5w", "", "x", .null,
    [⟨"q", "string", true, "", .str "dft"⟩, ⟨"p", "string", true, "", .null⟩]⟩

/-- Closed instance of the amended C5: calling the witness task with no
arguments resolves "q" from its default and fails on the first missing
required parameter "p". -/
theorem claim_C5_witness :
    createTaskToolHandler c5Executors c5wTask (.obj []) =
      .ok (create_error_response "Missing required parameter: p") :=
  (claim_C5_amended_resolution c5Executors c5wTask).2 []
    [⟨"q", "string", true, "", .str "dft"⟩] ⟨"p", "string", true, "", .null⟩ []
    rfl
    (by
      intro q hq
      rcases List.mem_singleton.1 hq with rfl
      exact Or.inr (Or.inl rfl))
    (by
      intro q hq
      rcases List.mem_singleton.1 hq with rfl
      decide)
    rfl rfl rfl

end DynamicMcp

namespace Mcp

/-- The exceptions distinguished by the catch clauses of
`MCPServer::handle_message`: nlohmann `json::exception`s and other
`std::exception`s, carried with their message. -/
inductive JErr where
  | jsonExc (msg : String)
  | stdExc (msg : String)

/-- `mcp::Tool` (header `mcp_server.hpp`).  The registered handler may throw;
a thrown exception is `Except.error` carrying the message. -/
structure Tool where
  name : String
  description : String
  input_schema : Json
  function : Json → Except String Json

/-- `mcp::Resource`. -/
structure Resource where
  uri : String
  name : String
  description : String
  mime_type : String
  function : Unit → Except String String

/-- `mcp::Prompt`. -/
structure Prompt where
  name : String
  description : String
  arguments : Json
  function : Json → Except String Json

/-- The state of an `MCPServer`: name and version, the initialization flag,
the recorded client info (a json value, initially null), and the three
registries (`std::map`s keyed by name/URI, carried here in their key-sorted
iteration order). -/
structure ServerState where
  server_name : String
  server_version : String
  initialized : Bool
  client_info : Json
  tools : List (String × Tool)
  resources : List (String × Resource)
  prompts : List (String × Prompt)

/-- Registry lookup (`std::map::find`). -/
def lookupReg {α : Type} : List (String × α) → String → Option α
  | [], _ => none
  | (k, v) :: rest, key => if k = key then some v else lookupReg rest key

/-- `MCPServer::create_error_response`. -/
def MCPServer.create_error_response (id : Int) (code : Int) (message : String) : Json :=
  .obj [("jsonrpc", .str "2.0"), ("id", .intNum id),
    ("error", .obj [("code", .intNum code), ("message", .str message)])]

/-- `MCPServer::create_success_response`. -/
def MCPServer.create_success_response (id : Int) (result : Json) : Json :=
  .obj [("jsonrpc", .str "2.0"), ("id", .intNum id), ("result", result)]

/-- `MCPServer::handle_initialize`: sets the initialized flag, records the
client info when present, and reports a capability object for each non-empty
registry. -/
def MCPServer.handle_initialize (st : ServerState) (params : Json) :
    Json × ServerState :=
  let st1 : ServerState :=
    { st with
      initialized := true
      client_info :=
        match params.lookup "clientInfo" with
        | some ci => ci
        | none => st.client_info }
  let capsList : List (String × Json) :=
    (if st.tools.isEmpty = false then [("tools", Json.obj [])] else []) ++
    (if st.resources.isEmpty = false then
      [("resources", Json.obj [("subscribe", .boolean false),
        ("listChanged", .boolean false)])] else []) ++
    (if st.prompts.isEmpty = false then
      [("prompts", Json.obj [("listChanged", .boolean false)])] else [])
  (.obj [("protocolVersion", .str "2024-11-05"),
    ("capabilities", .obj capsList),
    ("serverInfo", .obj [("name", .str st.server_name),
      ("version", .str st.server_version)])], st1)

/-- `MCPServer::handle_tools_list`. -/
def MCPServer.handle_tools_list (st : ServerState) (_params : Json) : Json :=
  .obj [("tools", .arr (st.tools.map (fun kv =>
    .obj [("name", .str kv.2.name), ("description", .str kv.2.description),
      ("inputSchema", kv.2.input_schema)])))]

/-- `MCPServer::handle_tools_call`: missing `name` and a name that matches no
registered tool are thrown as `std::runtime_error`s; a non-string name throws
a json exception; a tool exception is rethrown wrapped. -/
def MCPServer.handle_tools_call (st : ServerState) (params : Json) :
    Except JErr Json :=
  if (params.lookup "name").isSome = false then
    .error (.stdExc "Missing 'name' parameter")
  else
    match ((params.lookup "name").getD .null).getStr with
    | .error e => .error (.jsonExc e)
    | .ok tool_name =>
      match lookupReg st.tools tool_name with
      | none => .error (.stdExc ("Tool not found: " ++ tool_name))
      | some tool =>
        let arguments :=
          match params.lookup "arguments" with
          | some a => a
          | none => Json.obj []
        match tool.function arguments with
        | .ok result =>
          .ok (.obj [("content", .arr [.obj [("type", .str "text"),
            ("text", .str (match result with | .str s => s | r => r.dump))]])])
        | .error e => .error (.stdExc ("Tool execution failed: " ++ e))

/-- `MCPServer::handle_resources_list`. -/
def MCPServer.handle_resources_list (st : ServerState) (_params : Json) : Json :=
  .obj [("resources", .arr (st.resources.map (fun kv =>
    .obj [("uri", .str kv.2.uri), ("name", .str kv.2.name),
      ("description", .str kv.2.description), ("mimeType", .str kv.2.mime_type)])))]

/-- `MCPServer::handle_resources_read`. -/
def MCPServer.handle_resources_read (st : ServerState) (params : Json) :
    Except JErr Json :=
  if (params.lookup "uri").isSome = false then
    .error (.stdExc "Missing 'uri' parameter")
  else
    match ((params.lookup "uri").getD .null).getStr with
    | .error e => .error (.jsonExc e)
    | .ok uri =>
      match lookupReg st.resources uri with
      | none => .error (.stdExc ("Resource not found: " ++ uri))
      | some res =>
        match res.function () with
        | .ok content =>
          .ok (.obj [("contents", .arr [.obj [("uri", .str uri),
            ("mimeType", .str res.mime_type), ("text", .str content)]])])
        | .error e => .error (.stdExc ("Resource read failed: " ++ e))

/-- `MCPServer::handle_prompts_list`. -/
def MCPServer.handle_prompts_list (st : ServerState) (_params : Json) : Json :=
  .obj [("prompts", .arr (st.prompts.map (fun kv =>
    .obj [("name", .str kv.2.name), ("description", .str kv.2.description),
      ("arguments", kv.2.arguments)])))]

/-- `MCPServer::handle_prompts_get`. -/
def MCPServer.handle_prompts_get (st : ServerState) (params : Json) :
    Except JErr Json :=
  if (params.lookup "name").isSome = false then
    .error (.stdExc "Missing 'name' parameter")
  else
    match ((params.lookup "name").getD .null).getStr with
    | .error e => .error (.jsonExc e)
    | .ok prompt_name =>
      match lookupReg st.prompts prompt_name with
      | none => .error (.stdExc ("Prompt not found: " ++ prompt_name))
      | some pr =>
        let arguments :=
          match params.lookup "arguments" with
          | some a => a
          | none => Json.obj []
        match pr.function arguments with
        | .ok result =>
          .ok (.obj [("description", .str pr.description), ("messages", result)])
        | .error e => .error (.stdExc ("Prompt execution failed: " ++ e))

/-- The check `!message.contains("jsonrpc") || message["jsonrpc"] != "2.0"`
(here in positive form): the member exists and equals the string "2.0". -/
def jsonrpcOk (message : Json) : Bool :=
  match message.lookup "jsonrpc" with
  | some (.str s) => s = "2.0"
  | _ => false

/-- The body of `MCPServer::handle_message` inside its `try` block; an
exception reaching a catch clause is `Except.error`.  The id of the message
is read with `message["id"].get<int>()`, so a non-integer id throws a json
exception before any dispatch happens. -/
def MCPServer.handle_message_core (st : ServerState) (message : Json) :
    Except JErr (Json × ServerState) :=
  if jsonrpcOk message = false then
    .ok (MCPServer.create_error_response (-1) (-32600) "Invalid JSON-RPC version", st)
  else if (message.lookup "method").isSome = false then
    .ok (MCPServer.create_error_response (-1) (-32600) "Missing method", st)
  else
    match ((message.lookup "method").getD .null).getStr with
    | .error e => .error (.jsonExc e)
    | .ok method =>
      let params :=
        match message.lookup "params" with
        | some p => p
        | none => Json.obj []
      match (match message.lookup "id" with
             | some j => j.getInt
             | none => Except.ok (-1 : Int)) with
      | .error e => .error (.jsonExc e)
      | .ok id =>
        if method = "initialize" then
          let rs := MCPServer.handle_initialize st params
          .ok (MCPServer.create_success_response id rs.1, rs.2)
        else if st.initialized = false ∧ ¬ method = "initialize" then
          .ok (MCPServer.create_error_response id (-32002) "Server not initialized", st)
        else if method = "tools/list" then
          .ok (MCPServer.create_success_response id
            (MCPServer.handle_tools_list st params), st)
        else if method = "tools/call" then
          match MCPServer.handle_tools_call st params with
          | .error e => .error e
          | .ok r => .ok (MCPServer.create_success_response id r, st)
        else if method = "resources/list" then
          .ok (MCPServer.create_success_response id
            (MCPServer.handle_resources_list st params), st)
        else if method = "resources/read" then
          match MCPServer.handle_resources_read st params with
          | .error e => .error e
          | .ok r => .ok (MCPServer.create_success_response id r, st)
        else if method = "prompts/list" then
          .ok (MCPServer.create_success_response id
            (MCPServer.handle_prompts_list st params), st)
        else if method = "prompts/get" then
          match MCPServer.handle_prompts_get st params with
          | .error e => .error e
          | .ok r => .ok (MCPServer.create_success_response id r, st)
        else
          .ok (MCPServer.create_error_response id (-32601)
            ("Method not found: " ++ method), st)

/-- `MCPServer::handle_message`: the try body plus its two catch clauses.  A
`json::exception` yields a parse-error response with id -1; any other
`std::exception` yields an internal-error response re-reading the id (that
re-read cannot throw, because a std exception is only raised after the id was
already read successfully). -/
def MCPServer.handle_message (st : ServerState) (message : Json) :
    Json × ServerState :=
  match MCPServer.handle_message_core st message with
  | .ok r => r
  | .error (.jsonExc e) =>
    (MCPServer.create_error_response (-1) (-32700) ("Parse error: " ++ e), st)
  | .error (.stdExc e) =>
    let i : Int :=
      match message.lookup "id" with
      | some j => match j.getInt with | .ok n => n | .error _ => -1
      | none => -1
    (MCPServer.create_error_response i (-32603) ("Internal error: " ++ e), st)

end Mcp

namespace Mcp

/-- A freshly constructed, uninitialised server with empty registries. -/
def freshServer : ServerState := ⟨"TestServer", "1.0.0", false, .null, [], [], []⟩

/-- A server after a successful `initialize`, with empty registries. -/
def initializedServer : ServerState := ⟨"TestServer", "1.0.0", true, .null, [], [], []⟩

/-- The C1 failing input: a well-formed request whose id is the string
"abc". -/
def c1Message : Json :=
  .obj [("jsonrpc", .str "2.0"), ("id", .str "abc"), ("method", .str "initialize")]

/-- C1 fails on the code: `handle_message` reads every id with
`message["id"].get<int>()`, so a request whose id is the string "abc" throws
a json exception and is answered with id -1 and the parse-error code -32700
— the id is not echoed, and its type is not preserved.  The state is also
left untouched (the initialize never runs). -/
theorem claim_C1_string_id_not_echoed :
    (MCPServer.handle_message freshServer c1Message).1.lookup "id" =
      some (.intNum (-1)) ∧
    ((MCPServer.handle_message freshServer c1Message).1.lookup "error").bind
      (fun e => e.lookup "code") = some (.intNum (-32700)) ∧
    (MCPServer.handle_message freshServer c1Message).2 = freshServer :=
  ⟨rfl, rfl, rfl⟩

/-- The C2 counterexample input: a well-formed non-initialize pre-init
request whose id is a string. -/
def c2BadIdMessage : Json :=
  .obj [("jsonrpc", .str "2.0"), ("id", .str "abc"), ("method", .str "tools/list")]

/-- C2 is false as stated: the well-formed request
`{"jsonrpc":"2.0","id":"abc","method":"tools/list"}` received while the
session is uninitialised is answered with the parse-error code -32700 (and
id -1), not -32002 — the id coercion to int throws before the
initialisation gate is reached.  The state is still unchanged. -/
theorem claim_C2_counterexample :
    ((MCPServer.handle_message freshServer c2BadIdMessage).1.lookup "error").bind
      (fun e => e.lookup "code") = some (.intNum (-32700)) ∧
    ¬ ((MCPServer.handle_message freshServer c2BadIdMessage).1.lookup "error").bind
      (fun e => e.lookup "code") = some (.intNum (-32002)) ∧
    (MCPServer.handle_message freshServer c2BadIdMessage).2 = freshServer := by
  refine ⟨rfl, ?_, rfl⟩
  intro h
  have h0 : ((MCPServer.handle_message freshServer c2BadIdMessage).1.lookup "error").bind
      (fun e => e.lookup "code") = some (.intNum (-32700)) := rfl
  rw [h0] at h
  injection h with h1
  injection h1 with h2
  exact absurd h2 (by decide)

/-- C2 (amended): any request with a well-formed envelope whose id the server
can read — version "2.0", a string method other than "initialize", an id
that is absent or a JSON integer — received while the session is
uninitialised is answered with code -32002 and message
"Server not initialized", the id echoed after the 32-bit int truncation the
id coercion performs, and the whole server state — initialized flag, client
info and the three registries — is unchanged.  (A string or null id is
instead answered with a -32700 parse-error response carrying id -1, see the
counterexample; the state is unchanged there too.) -/
theorem claim_C2_initialisation_gate (st : ServerState) (message : Json) (m : String)
    (hinit : st.initialized = false)
    (hrpc : message.lookup "jsonrpc" = some (.str "2.0"))
    (hmethod : message.lookup "method" = some (.str m))
    (hm : ¬ m = "initialize")
    (hid : message.lookup "id" = none ∨
      ∃ n : Int, message.lookup "id" = some (.intNum n)) :
    MCPServer.handle_message st message =
      (MCPServer.create_error_response
        (match message.lookup "id" with
         | some (.intNum n) => toInt32 n
         | _ => -1) (-32002) "Server not initialized", st) := by
  unfold MCPServer.handle_message MCPServer.handle_message_core
  rcases hid with hid | ⟨n, hid⟩ <;>
    simp [jsonrpcOk, hrpc, hmethod, hid, Json.getStr, Json.getInt, hm, hinit]

/-- The C2 instance: the spec's call-before-init scenario. -/
def c2Message : Json :=
  .obj [("jsonrpc", .str "2.0"), ("id", .intNum 7), ("method", .str "tools/list")]

/-- Closed instance of C2: `tools/list` with id 7 before initialisation is
answered with -32002 and id 7, and the state is unchanged. -/
theorem claim_C2_witness :
    MCPServer.handle_message freshServer c2Message =
      (MCPServer.create_error_response 7 (-32002) "Server not initialized",
        freshServer) :=
  claim_C2_initialisation_gate freshServer c2Message "tools/list"
    rfl rfl rfl (by decide) (Or.inr ⟨7, rfl⟩)

/-- The C6 failing input: the `notifications/initialized` notification. -/
def c6Message : Json :=
  .obj [("jsonrpc", .str "2.0"), ("method", .str "notifications/initialized")]

/-- C6 fails on the code: after initialisation, `notifications/initialized`
is not recognised by the dispatcher and falls through to the method-not-found
branch — the server produces a -32601 error response (with id -1, the
notification having no id) where the claim says no response is produced. -/
theorem claim_C6_notification_gets_response :
    MCPServer.handle_message initializedServer c6Message =
      (MCPServer.create_error_response (-1) (-32601)
        "Method not found: notifications/initialized", initializedServer) := rfl

/-- The C7 failing input: a `tools/call` for the unregistered name "nope". -/
def c7Message : Json :=
  .obj [("jsonrpc", .str "2.0"), ("id", .intNum 3), ("method", .str "tools/call"),
    ("params", .obj [("name", .str "nope")])]

/-- C7 fails on the code: after initialisation, `tools/call` with an unknown
name throws `std::runtime_error("Tool not found: ...")`, which the outer
catch converts to -32603 "Internal error: ..." — not -32601 or -32602.  The
state is unchanged, so the session does remain usable. -/
theorem claim_C7_unknown_tool_is_internal_error :
    MCPServer.handle_message initializedServer c7Message =
      (MCPServer.create_error_response 3 (-32603)
        "Internal error: Tool not found: nope", initializedServer) := rfl

end Mcp
